import Mathlib

/-!
Verification of the rule model of the `Rules` repository
(`Utils/rule.py`, `Utils/geosite.py`): the Rule/RuleSet data model,
the subsumption deduplicator, the patch applier, the nested-include
resolver and the serializer, shallowly embedded in Lean.

Python strings are modelled as `String`, Python lists as `List`,
raised exceptions as `Option`/`none`, and `None` returned from a
Python function used in boolean position as `false`.
-/

/-- Python `suffix in s` membership for a one-or-more character needle,
and `str.endswith`: a suffix test on the character sequence. -/
def pyEndsWith (s suffix : String) : Bool :=
  suffix.data.isSuffixOf s.data

/-- Contiguous-sublist test on character lists (structural recursion,
so that concrete instances evaluate inside the kernel). -/
def listIsInfixOf (needle : List Char) : List Char → Bool
  | [] => needle.isEmpty
  | h :: t => needle.isPrefixOf (h :: t) || listIsInfixOf needle t

/-- Python `needle in haystack` substring containment. -/
def pyIn (needle haystack : String) : Bool :=
  listIsInfixOf needle.data haystack.data

/-- Python `str.startswith`. -/
def pyStartsWith (s prefix_ : String) : Bool :=
  prefix_.data.isPrefixOf s.data

/-- Fuel-driven worker for `pySplit` (structural recursion on the fuel,
so that concrete instances evaluate inside the kernel). -/
def pySplitGo (sep : List Char) : Nat → List Char → List (List Char)
  | 0, l => [l]
  | _ + 1, [] => [[]]
  | fuel + 1, c :: rest =>
    if sep.isPrefixOf (c :: rest) then
      [] :: pySplitGo sep fuel ((c :: rest).drop sep.length)
    else
      match pySplitGo sep fuel rest with
      | [] => [[c]]
      | t :: ts => (c :: t) :: ts

/-- Python `str.split(sep)` for a nonempty separator. -/
def pySplit (s sep : String) : List String :=
  (pySplitGo sep.data (s.data.length + 1) s.data).map fun cs => ⟨cs⟩

/-- Python `int` on a string of decimal digits. -/
def pyInt (s : String) : Nat :=
  s.data.foldl (fun n c => n * 10 + (c.toNat - '0'.toNat)) 0

/-- Python lexicographic `<=` on strings, as a recursion over the
character lists (code-point order, shorter prefix first). -/
def lexLe : List Char → List Char → Bool
  | [], _ => true
  | _ :: _, [] => false
  | a :: as, b :: bs =>
    if a.toNat < b.toNat then true
    else if b.toNat < a.toNat then false
    else lexLe as bs

/-- Python `a <= b` on strings. -/
def pyStrLe (a b : String) : Bool :=
  lexLe a.data b.data

/-- `Utils/rule.py` `Rule`: a matching entry.  The Python attribute
`Type` is named `Typ` here (`Type` is reserved in Lean). -/
structure Rule where
  Typ : String
  Payload : String
  Tag : String
  deriving DecidableEq, Repr

/-- `Rule.__eq__`: equality on `Type` and `Payload` only; `Tag` is
excluded from identity. -/
def Rule.pyEq (a b : Rule) : Bool :=
  a.Typ == b.Typ && a.Payload == b.Payload

/-- `Rule.includes`: a `DomainSuffix` includes an equal payload or any
dot-separated subdomain of it; a `DomainFull` includes only a rule equal
to it; every other branch returns Python `None`, i.e. `false` when used
as a condition. -/
def Rule.includes (a b : Rule) : Bool :=
  if a.Typ == "DomainSuffix" then
    if a.Payload == b.Payload then true
    else pyEndsWith b.Payload ("." ++ a.Payload)
  else if a.Typ == "DomainFull" then
    a.pyEq b
  else false

/-- `is_ipv4addr` from `Utils/rule.py`: exactly three dots, every
dot-separated part a nonempty digit string whose value is at most 255. -/
def is_ipv4addr (addr : String) : Bool :=
  if addr.data.count '.' != 3 then false
  else (pySplit addr ".").all fun part =>
    part != "" && part.data.all Char.isDigit && pyInt part ≤ 255

/-- `is_domain` from `Utils/rule.py`: rejects a blacklist of
metacharacters, a leading `-`, a trailing `.` or `-`, and bare IPv4
literals. -/
def is_domain (addr : String) : Bool :=
  let blacklist : List Char :=
    ['/', '*', '=', '~', '?', '#', ',', ':', ' ', '(', ')', '[', ']', '_', '|', '@', '^']
  if addr.data.any (fun c => blacklist.contains c)
      || pyStartsWith addr "-"
      || pyEndsWith addr "."
      || pyEndsWith addr "-"
      || is_ipv4addr addr then
    false
  else true

/-- Part of the model of `ipaddress.ip_network` acceptance: a dotted-quad
IPv4 address, four nonempty all-digit octets at most 255 with no extra
leading zero. -/
def ipv4AddrOk (addr : String) : Bool :=
  let parts := pySplit addr "."
  parts.length == 4 && parts.all fun part =>
    part != "" && part.data.all Char.isDigit &&
      (part.data.length == 1 || part.data.head? != some '0') &&
      pyInt part ≤ 255

/-- Part of the model of `ipaddress.ip_network` acceptance: one IPv6
group, one to four hexadecimal digits. -/
def ipv6GroupOk (g : String) : Bool :=
  g.data.length ≥ 1 && g.data.length ≤ 4 && g.data.all fun c =>
    c.isDigit || ('a' ≤ c && c ≤ 'f') || ('A' ≤ c && c ≤ 'F')

/-- Part of the model of `ipaddress.ip_network` acceptance: an IPv6
address, colon-separated hexadecimal groups with at most one `::`
abbreviation. -/
def ipv6AddrOk (addr : String) : Bool :=
  match pySplit addr "::" with
  | [whole] =>
    let gs := pySplit whole ":"
    gs.length == 8 && gs.all ipv6GroupOk
  | [l, r] =>
    let lg := if l == "" then [] else pySplit l ":"
    let rg := if r == "" then [] else pySplit r ":"
    lg.length + rg.length ≤ 7 && lg.all ipv6GroupOk && rg.all ipv6GroupOk
  | _ => false

/-- Modelled from the spec: the validation performed by the external
standard-library call `ipaddress.ip_network(payload)` in
`Rule.set_payload` — "a syntactically valid CIDR/IP literal" (v4 or v6,
with an optional `/prefix` no larger than the address width).  The
library's strict host-bit check and rarer literal forms are not part of
the spec's wording and are not modelled. -/
def ip_network_valid (payload : String) : Bool :=
  let checkPrefix (addrOk : String → Bool) (maxLen : Nat) : Bool :=
    match pySplit payload "/" with
    | [addr] => addrOk addr
    | [addr, p] =>
      addrOk addr && p != "" && p.data.all Char.isDigit && pyInt p ≤ maxLen
    | _ => false
  if pyIn ":" payload then checkPrefix ipv6AddrOk 128
  else checkPrefix ipv4AddrOk 32

/-- The tuple of types accepted by `Rule.set_type`. -/
def allowed_rule_types : List String :=
  ["DomainSuffix", "DomainFull", "IPCIDR", "IPCIDR6"]

/-- `Rule.__init__`: with a truthy `rule_type` or `payload` it runs
`set_type` (kind must be enumerated) then `set_payload` (domain kinds
through `is_domain`, IP kinds through `ip_network`); with both falsy it
builds the empty rule.  `none` models a raised
`TypeError`/`ValueError`. -/
def mkRule (rule_type payload tag : String) : Option Rule :=
  if rule_type == "" && payload == "" then
    some ⟨"", "", tag⟩
  else if !allowed_rule_types.contains rule_type then
    none
  else if pyIn "Domain" rule_type then
    if is_domain payload then some ⟨rule_type, payload, tag⟩ else none
  else if pyIn "IP" rule_type then
    if ip_network_valid payload then some ⟨rule_type, payload, tag⟩ else none
  else
    some ⟨rule_type, payload, tag⟩

/-- `Utils/rule.py` `RuleSet`. -/
structure RuleSet where
  Typ : String
  Payload : List Rule
  deriving DecidableEq, Repr

/-- The tuple of types accepted by `RuleSet.set_type`. -/
def allowed_ruleset_types : List String :=
  ["Domain", "IPCIDR", "Combined"]

/-- The homogeneity check of `RuleSet.set_payload`: `Domain` admits
types containing `"Domain"`, `IPCIDR` admits types containing
`"IPCIDR"`, `Combined` admits the five enumerated types, and any other
ruleset type is unchecked (no `case _` in the source `match`). -/
def payloadOk (ruleset_type : String) (payload : List Rule) : Bool :=
  if ruleset_type == "Domain" then
    payload.all fun item => pyIn "Domain" item.Typ
  else if ruleset_type == "IPCIDR" then
    payload.all fun item => pyIn "IPCIDR" item.Typ
  else if ruleset_type == "Combined" then
    payload.all fun item =>
      ["DomainSuffix", "DomainFull", "IPCIDR", "IPCIDR6", "Classical"].contains item.Typ
  else true

/-- `RuleSet.set_payload`: validate every item against the declared
type, then replace the payload; a `ValueError` (modelled `none`) is
raised before the assignment, so the old payload survives a failure. -/
def RuleSet.set_payload (rs : RuleSet) (payload : List Rule) : Option RuleSet :=
  if payloadOk rs.Typ payload then some { rs with Payload := payload } else none

/-- `RuleSet.__init__`: with a truthy type or payload, `set_type` then
`set_payload`; with both falsy, the empty ruleset. -/
def mkRuleSet (ruleset_type : String) (payload : List Rule) : Option RuleSet :=
  if ruleset_type == "" && payload.isEmpty then
    some ⟨"", []⟩
  else if !allowed_ruleset_types.contains ruleset_type then
    none
  else
    RuleSet.set_payload ⟨ruleset_type, []⟩ payload

/-- `RuleSet.add`: a plain list append, with no validation. -/
def RuleSet.add (rs : RuleSet) (rule : Rule) : RuleSet :=
  { rs with Payload := rs.Payload ++ [rule] }

/-- Python `rule in ruleset` (`RuleSet.__contains__`): membership by
`Rule.__eq__`. -/
def pyMem (rule : Rule) (l : List Rule) : Bool :=
  l.any fun item => item.pyEq rule

/-- Python `list.remove`: drop the first element equal (by
`Rule.__eq__`) to the argument. -/
def pyRemove (l : List Rule) (rule : Rule) : List Rule :=
  match l with
  | [] => []
  | x :: xs => if x.pyEq rule then xs else x :: pyRemove xs rule

/-- The key type produced by `sort_key` inside `RuleSet.sort`: a Python
tuple `(0|1, len, payload)` for domain kinds, the bare payload string
otherwise. -/
inductive SKey where
  | tup (rank len : Nat) (s : String)
  | str (s : String)
  deriving DecidableEq, Repr

/-- `sort_key` from `RuleSet.sort`: suffixes before full domains,
shorter before longer, then lexicographic; other kinds sort by their
payload string. -/
def sort_key (item : Rule) : SKey :=
  if item.Typ == "DomainSuffix" then .tup 0 item.Payload.length item.Payload
  else if item.Typ == "DomainFull" then .tup 1 item.Payload.length item.Payload
  else .str item.Payload

/-- Comparison of two sort keys, Python tuple/string `<=`.  (Python
raises comparing a tuple with a string; a homogeneous ruleset never
compares across the two shapes, and the cross cases here are fixed
arbitrarily.) -/
def keyLe : SKey → SKey → Bool
  | .tup a1 b1 s1, .tup a2 b2 s2 =>
    if a1 < a2 then true
    else if a2 < a1 then false
    else if b1 < b2 then true
    else if b2 < b1 then false
    else pyStrLe s1 s2
  | .tup _ _ _, .str _ => true
  | .str _, .tup _ _ _ => false
  | .str s1, .str s2 => pyStrLe s1 s2

/-- The order `RuleSet.sort` sorts by. -/
def ruleLe (a b : Rule) : Bool :=
  keyLe (sort_key a) (sort_key b)

/-- Insert into a sorted list, before the first element it is `le` to:
the stable insertion step. -/
def insertOrd (le : α → α → Bool) (x : α) : List α → List α
  | [] => [x]
  | y :: ys => if le x y then x :: y :: ys else y :: insertOrd le x ys

/-- Stable insertion sort; extensionally the list sort used by
`RuleSet.sort` (Python's sort is stable and keyed by `sort_key`). -/
def sortOrd (le : α → α → Bool) (l : List α) : List α :=
  l.foldr (insertOrd le) []

/-- `RuleSet.sort`: refuse (no-op) on `Combined`, otherwise stable-sort
the payload by `sort_key`. -/
def RuleSet.sort (rs : RuleSet) : RuleSet :=
  if rs.Typ == "Combined" then rs
  else { rs with Payload := sortOrd ruleLe rs.Payload }

/-- The accumulator loop of `RuleSet.dedup`: keep an item unless an
already-kept item `includes` it. -/
def scanGo (incl : α → α → Bool) (acc : List α) : List α → List α
  | [] => acc
  | x :: xs =>
    if acc.any (fun a => incl a x) then scanGo incl acc xs
    else scanGo incl (acc ++ [x]) xs

/-- The single pass of `RuleSet.dedup` over the (sorted) payload. -/
def scanKeep (incl : α → α → Bool) (l : List α) : List α :=
  scanGo incl [] l

/-- `RuleSet.dedup`: sort (a no-op for `Combined`), then the
subsumption scan, then replace the payload with the kept list.  Note the
scan runs for `Combined` rulesets too — only the sorting step is
skipped. -/
def RuleSet.dedup (rs : RuleSet) : RuleSet :=
  let s := rs.sort
  { s with Payload := scanKeep Rule.includes s.Payload }

/-- Python `str.strip(chars)`: drop any of the given characters from
both ends. -/
def pyStripChars (chars : List Char) (s : String) : String :=
  ⟨((s.data.dropWhile (chars.contains ·)).reverse.dropWhile (chars.contains ·)).reverse⟩

/-- The Rule built for a patch value: a leading `.` means
`DomainSuffix` (with dots stripped from both ends, Python `strip(".")`),
otherwise `DomainFull`. -/
def patchRuleOf (v : String) : Option Rule :=
  if pyStartsWith v "." then mkRule "DomainSuffix" (pyStripChars ['.'] v) ""
  else mkRule "DomainFull" v ""

/-- One line of `apply_patch`: outer `none` models a crash (`IndexError`
on a bare `ADD`/`REM`, or a Rule validation error); inner `none` is a
comment or an ignored line; otherwise the parsed operation
(`true` = ADD, `false` = REM). -/
def parsePatchLine (line : String) : Option (Option (Bool × Rule)) :=
  if pyStartsWith line "#" then some none
  else
    match pySplit line ":" with
    | [] => some none
    | p0 :: rest =>
      if p0 == "ADD" then
        match rest with
        | [] => none
        | v :: _ =>
          match patchRuleOf v with
          | none => none
          | some r => some (some (true, r))
      else if p0 == "REM" then
        match rest with
        | [] => none
        | v :: _ =>
          match patchRuleOf v with
          | none => none
          | some r => some (some (false, r))
      else some none

/-- The state change of one parsed patch operation: `ADD` appends when
the rule is not yet present (by `Rule.__eq__`), `REM` removes the first
occurrence when present; both otherwise only warn. -/
def patchStep (src : List Rule) (op : Bool × Rule) : List Rule :=
  if op.1 then
    if pyMem op.2 src then src else src ++ [op.2]
  else
    if pyMem op.2 src then pyRemove src op.2 else src

/-- The line loop of `apply_patch` over a payload list. -/
def applyPatchLines : List String → List Rule → Option (List Rule)
  | [], src => some src
  | line :: rest, src =>
    match parsePatchLine line with
    | none => none
    | some none => applyPatchLines rest src
    | some (some op) => applyPatchLines rest (patchStep src op)

/-- `apply_patch`: `none` for the patch argument models the
`FileNotFoundError` path — the RuleSet is returned unchanged; otherwise
the patch lines are applied in order to the payload. -/
def apply_patch (patch : Option (List String)) (src : RuleSet) : Option RuleSet :=
  match patch with
  | none => some src
  | some lines =>
    (applyPatchLines lines src.Payload).map fun p => { src with Payload := p }

/-- The effect of one patch line on whether a rule (up to `Rule.__eq__`)
is present. -/
def lineEffect (line : String) (r : Rule) (b : Bool) : Bool :=
  match parsePatchLine line with
  | some (some (isAdd, x)) => if x.pyEq r then isAdd else b
  | _ => b

/-- Presence of a rule after a whole patch, as a fold of the per-line
effects over the initial presence. -/
def patchAuto (lines : List String) (r : Rule) (b : Bool) : Bool :=
  lines.foldl (fun acc line => lineEffect line r acc) b

/-- Python `str.strip()` with no argument: drop whitespace from both
ends. -/
def pyTrim (s : String) : String :=
  ⟨((s.data.dropWhile Char.isWhitespace).reverse.dropWhile Char.isWhitespace).reverse⟩

/-- `Utils/geosite.py` `Rule`: the intermediate parse-time rule, kind
`Suffix`/`Full` plus an optional tag.  The class defines no custom
equality, so a Python `set` of these holds every parsed object. -/
structure GRule where
  Typ : String
  Payload : String
  Tag : String
  deriving DecidableEq, Repr

/-- Classification of one raw line by `geosite.parse`. -/
inductive GLine where
  | skip : GLine
  | rule (g : GRule) : GLine
  | incl (name : String) : GLine
  deriving DecidableEq, Repr

/-- The per-line processing of `geosite.parse` before any recursion:
strip the `#` comment and surrounding whitespace; if `@` occurs, take
the tag from `split("@")[1]` and the body from `split(" @")[0]`; a body
with no `:` is a `Suffix` rule, a `full:` body is a `Full` rule (with
Python's `strip("full:")` character-set strip), an `include:` body
names another list, and anything else is skipped. -/
def classifyLine (raw : String) : GLine :=
  let line0 := pyTrim ((pySplit raw "#").headD "")
  if line0 == "" then .skip
  else
    let tag := if pyIn "@" line0 then ((pySplit line0 "@").getD 1 "") else ""
    let line := if pyIn "@" line0 then ((pySplit line0 " @").headD "") else line0
    if !(pyIn ":" line) then .rule ⟨"Suffix", line, tag⟩
    else if pyStartsWith line "full:" then
      .rule ⟨"Full", pyStripChars ['f', 'u', 'l', ':'] line, tag⟩
    else if pyStartsWith line "include:" then
      .incl ((pySplit line "include:").getD 1 "")
    else .skip

/-- `geosite.parse`, fuel-indexed: `store` maps a list name to the raw
lines of its file in the external store, and an include loads
`set(lines)` (modelled `List.dedup`) and recurses with the same
exclusion list.  The result is the bag of parsed rule objects (the
Python result `set` holds distinct objects, since `geosite.Rule` uses
identity equality); `none` models exhausting the recursion fuel, i.e.
non-termination of the unbounded Python recursion. -/
def parse (store : String → List String) (excluded_imports : List String) :
    Nat → List String → Option (List GRule)
  | _, [] => some []
  | fuel, raw :: rest =>
    match classifyLine raw with
    | .skip => parse store excluded_imports fuel rest
    | .rule g => (parse store excluded_imports fuel rest).map fun t => g :: t
    | .incl name =>
      if name ∈ excluded_imports then parse store excluded_imports fuel rest
      else
        match fuel with
        | 0 => none
        | f + 1 =>
          match parse store excluded_imports f ((store name).dedup) with
          | none => none
          | some sub => (parse store excluded_imports (f + 1) rest).map fun t => sub ++ t
termination_by fuel l => (fuel, l.length)
decreasing_by
  all_goals simp_wf
  all_goals first
    | exact Prod.Lex.right _ (by omega)
    | exact Prod.Lex.left _ _ (by omega)

/-- The names referenced by the `include:` lines of a source. -/
def includeTargets (lines : List String) : List String :=
  lines.filterMap fun raw =>
    match classifyLine raw with
    | .incl name => some name
    | _ => none

/-- The outcome of the serializer `dump`, abstracted over the file
system: `written` is the sequence of lines written, `writtenJson` the
three arrays (`domain`, `domain_suffix`, `ip_cidr`) of the structured
JSON document, `errorRule` a `TypeError` naming the offending rule or
ruleset kind and the destination path, `errorTarget` the `TypeError`
for an unsupported target, and `skipped` a logged no-write. -/
inductive DumpResult where
  | skipped : DumpResult
  | written (lines : List String) : DumpResult
  | writtenJson (domain domain_suffix ip_cidr : List String) : DumpResult
  | errorRule (ruleType dst : String) : DumpResult
  | errorTarget : DumpResult
  deriving DecidableEq, Repr

/-- One `surge-compatible` line, `none` for an unsupported rule kind. -/
def surgeLine (r : Rule) : Option String :=
  if r.Typ == "DomainSuffix" then some ("DOMAIN-SUFFIX," ++ r.Payload)
  else if r.Typ == "DomainFull" then some ("DOMAIN," ++ r.Payload)
  else if r.Typ == "IPCIDR" then some ("IP-CIDR," ++ r.Payload)
  else if r.Typ == "IPCIDR6" then some ("IP-CIDR6," ++ r.Payload)
  else none

/-- One `clash-compatible` line (trailing `,Policy`). -/
def clashLine (r : Rule) : Option String :=
  if r.Typ == "DomainSuffix" then some ("DOMAIN-SUFFIX," ++ r.Payload ++ ",Policy")
  else if r.Typ == "DomainFull" then some ("DOMAIN," ++ r.Payload ++ ",Policy")
  else if r.Typ == "IPCIDR" then some ("IP-CIDR," ++ r.Payload ++ ",Policy")
  else if r.Typ == "IPCIDR6" then some ("IP-CIDR6," ++ r.Payload ++ ",Policy")
  else none

/-- One `geosite` re-export line, `none` for an unsupported kind. -/
def geositeLine (r : Rule) : Option String :=
  if r.Typ == "DomainSuffix" then some r.Payload
  else if r.Typ == "DomainFull" then some ("full:" ++ r.Payload)
  else none

/-- Render every rule with a per-rule line function, raising
`TypeError` (with the rule kind and destination) on the first
unsupported rule. -/
def renderAll (f : Rule → Option String) (dst : String) : List Rule → DumpResult
  | [] => .written []
  | r :: rest =>
    match f r with
    | none => .errorRule r.Typ dst
    | some line =>
      match renderAll f dst rest with
      | .written ls => .written (line :: ls)
      | other => other

/-- The `sing-ruleset` rendering of a `Domain` RuleSet. -/
def singDomainGo (dst : String) : List Rule → DumpResult
  | [] => .writtenJson [] [] []
  | r :: rest =>
    if r.Typ == "DomainSuffix" then
      match singDomainGo dst rest with
      | .writtenJson d ds ip => .writtenJson d (("." ++ r.Payload) :: ds) ip
      | other => other
    else if r.Typ == "DomainFull" then
      match singDomainGo dst rest with
      | .writtenJson d ds ip => .writtenJson (r.Payload :: d) ds ip
      | other => other
    else .errorRule r.Typ dst

/-- The `sing-ruleset` rendering of an `IPCIDR` RuleSet. -/
def singIpGo (dst : String) : List Rule → DumpResult
  | [] => .writtenJson [] [] []
  | r :: rest =>
    if r.Typ == "IPCIDR" || r.Typ == "IPCIDR6" then
      match singIpGo dst rest with
      | .writtenJson d ds ip => .writtenJson d ds (r.Payload :: ip)
      | other => other
    else .errorRule r.Typ dst

/-- The `sing-ruleset` rendering of a `Combined` RuleSet: note the
source `match` has no `IPCIDR6` or fallback case, so such rules are
silently dropped. -/
def singCombinedGo : List Rule → DumpResult
  | [] => .writtenJson [] [] []
  | r :: rest =>
    match singCombinedGo rest with
    | .writtenJson d ds ip =>
      if r.Typ == "DomainFull" then .writtenJson (r.Payload :: d) ds ip
      else if r.Typ == "DomainSuffix" then .writtenJson d (("." ++ r.Payload) :: ds) ip
      else if r.Typ == "IPCIDR" then .writtenJson d ds (r.Payload :: ip)
      else .writtenJson d ds ip
    | other => other

/-- The `sing-ruleset` branch of `dump`: dispatch on the RuleSet kind,
raising `TypeError` with the ruleset kind for any other kind. -/
def sing_ruleset_dump (src : RuleSet) (dst : String) : DumpResult :=
  if src.Typ == "Domain" then singDomainGo dst src.Payload
  else if src.Typ == "IPCIDR" then singIpGo dst src.Payload
  else if src.Typ == "Combined" then singCombinedGo src.Payload
  else .errorRule src.Typ dst

/-- `dump` from `Utils/rule.py`, modelled on the produced file content.
The preamble skips: `geosite` refuses `IPCIDR` and `Combined` rulesets,
and any other non-`yaml`/`sing-ruleset` target containing `"text"`
refuses `Combined`; `yaml` has no such skip.  In the `text`,
`text-plus` and `yaml` renderers the source condition
`rule.Type == "DomainFull" or "IPCIDR" or "IPCIDR6"` is always truthy,
so every non-suffix rule is written as its bare payload and the
`TypeError` branch there is unreachable. -/
def dump (src : RuleSet) (target : String) (dst : String) : DumpResult :=
  if target == "yaml" then
    .written ("payload:" :: src.Payload.map fun r =>
      if r.Typ == "DomainSuffix" then "  - '+." ++ r.Payload ++ "'"
      else "  - '" ++ r.Payload ++ "'")
  else if target == "geosite" then
    if src.Typ == "IPCIDR" || src.Typ == "Combined" then .skipped
    else renderAll geositeLine dst src.Payload
  else if target == "sing-ruleset" then
    sing_ruleset_dump src dst
  else if pyIn "text" target && src.Typ == "Combined" then .skipped
  else if target == "text" then
    .written (src.Payload.map fun r =>
      if r.Typ == "DomainSuffix" then "." ++ r.Payload else r.Payload)
  else if target == "text-plus" then
    .written (src.Payload.map fun r =>
      if r.Typ == "DomainSuffix" then "+." ++ r.Payload else r.Payload)
  else if target == "surge-compatible" then
    renderAll surgeLine dst src.Payload
  else if target == "clash-compatible" then
    renderAll clashLine dst src.Payload
  else .errorTarget

example :
    (RuleSet.dedup ⟨"Domain",
      [⟨"DomainSuffix", "example.com", ""⟩, ⟨"DomainFull", "www.example.com", ""⟩]⟩) =
    ⟨"Domain", [⟨"DomainSuffix", "example.com", ""⟩]⟩ := by decide

example :
    (RuleSet.dedup ⟨"Domain",
      [⟨"DomainFull", "www.example.com", ""⟩, ⟨"DomainSuffix", "example.com", ""⟩]⟩) =
    ⟨"Domain", [⟨"DomainSuffix", "example.com", ""⟩]⟩ := by decide

example :
    (RuleSet.dedup ⟨"Domain",
      [⟨"DomainSuffix", "b.com", ""⟩, ⟨"DomainSuffix", "a.com", ""⟩]⟩) =
    ⟨"Domain", [⟨"DomainSuffix", "a.com", ""⟩, ⟨"DomainSuffix", "b.com", ""⟩]⟩ := by decide

example : mkRule "" "" "" = some ⟨"", "", ""⟩ := by decide

example : mkRule "DomainSuffix" "bad_domain" "" = none := by decide

example : mkRule "IPCIDR" "1.0.0.0/8" "" = some ⟨"IPCIDR", "1.0.0.0/8", ""⟩ := by decide

example : mkRule "IPCIDR" "999.1.1.1" "" = none := by decide

example : mkRule "IPCIDR6" "2001:db8::/32" "" = some ⟨"IPCIDR6", "2001:db8::/32", ""⟩ := by decide

example : is_domain "www.example.com" = true := by decide

example : is_domain "1.2.3.4" = false := by decide

theorem chainIf_le {m n : Nat} {r : Bool}
    (h : (if m < n then true else if n < m then false else r) = true) : m ≤ n := by
  by_cases g1 : m < n
  · omega
  · by_cases g2 : n < m
    · rw [if_neg g1, if_pos g2] at h
      exact absurd h (by simp)
    · omega

theorem chainIf_rest {m n : Nat} {r : Bool}
    (h : (if m < n then true else if n < m then false else r) = true) (he : m = n) :
    r = true := by
  subst he
  simpa using h

theorem chainIf_total (m n : Nat) {r r' : Bool} (h : r = true ∨ r' = true) :
    (if m < n then true else if n < m then false else r) = true ∨
      (if n < m then true else if m < n then false else r') = true := by
  rcases Nat.lt_trichotomy m n with g | g | g
  · left; simp [g]
  · subst g; simpa using h
  · right; simp [g]

theorem chainIf_trans {m1 m2 m3 : Nat} {r12 r23 r13 : Bool}
    (h1 : (if m1 < m2 then true else if m2 < m1 then false else r12) = true)
    (h2 : (if m2 < m3 then true else if m3 < m2 then false else r23) = true)
    (hr : r12 = true → r23 = true → r13 = true) :
    (if m1 < m3 then true else if m3 < m1 then false else r13) = true := by
  have l1 : m1 ≤ m2 := chainIf_le h1
  have l2 : m2 ≤ m3 := chainIf_le h2
  split_ifs with g1 g2
  · rfl
  · omega
  · have e1 : m1 = m2 := by omega
    have e2 : m2 = m3 := by omega
    exact hr (chainIf_rest h1 e1) (chainIf_rest h2 e2)

theorem lexLe_total (a b : List Char) : lexLe a b = true ∨ lexLe b a = true := by
  induction a generalizing b with
  | nil => left; rfl
  | cons x xs ih =>
    cases b with
    | nil => right; rfl
    | cons y ys =>
      simpa only [lexLe] using chainIf_total x.toNat y.toNat (ih ys)

theorem lexLe_trans {a b c : List Char} (h1 : lexLe a b = true) (h2 : lexLe b c = true) :
    lexLe a c = true := by
  induction a generalizing b c with
  | nil => rfl
  | cons x xs ih =>
    cases b with
    | nil => simp [lexLe] at h1
    | cons y ys =>
      cases c with
      | nil => simp [lexLe] at h2
      | cons z zs =>
        simp only [lexLe] at h1 h2 ⊢
        exact chainIf_trans h1 h2 fun ha hb => ih ha hb

theorem pyStrLe_total (a b : String) : pyStrLe a b = true ∨ pyStrLe b a = true :=
  lexLe_total a.data b.data

theorem pyStrLe_trans {a b c : String} (h1 : pyStrLe a b = true) (h2 : pyStrLe b c = true) :
    pyStrLe a c = true :=
  lexLe_trans h1 h2

theorem keyLe_total (a b : SKey) : keyLe a b = true ∨ keyLe b a = true := by
  cases a with
  | tup a1 b1 s1 =>
    cases b with
    | tup a2 b2 s2 =>
      simp only [keyLe]
      exact chainIf_total a1 a2 (chainIf_total b1 b2 (pyStrLe_total s1 s2))
    | str s2 => left; rfl
  | str s1 =>
    cases b with
    | tup a2 b2 s2 => right; rfl
    | str s2 => exact pyStrLe_total s1 s2

theorem keyLe_trans {a b c : SKey} (h1 : keyLe a b = true) (h2 : keyLe b c = true) :
    keyLe a c = true := by
  cases a with
  | tup a1 b1 s1 =>
    cases b with
    | tup a2 b2 s2 =>
      cases c with
      | tup a3 b3 s3 =>
        simp only [keyLe] at h1 h2 ⊢
        refine chainIf_trans h1 h2 fun ha hb => ?_
        exact chainIf_trans ha hb fun ha' hb' => pyStrLe_trans ha' hb'
      | str s3 => rfl
    | str s2 =>
      cases c with
      | tup a3 b3 s3 => simp [keyLe] at h2
      | str s3 => rfl
  | str s1 =>
    cases b with
    | tup a2 b2 s2 => simp [keyLe] at h1
    | str s2 =>
      cases c with
      | tup a3 b3 s3 => simp [keyLe] at h2
      | str s3 => exact pyStrLe_trans h1 h2

theorem ruleLe_total (a b : Rule) : ruleLe a b = true ∨ ruleLe b a = true :=
  keyLe_total (sort_key a) (sort_key b)

theorem ruleLe_trans {a b c : Rule} (h1 : ruleLe a b = true) (h2 : ruleLe b c = true) :
    ruleLe a c = true :=
  keyLe_trans h1 h2

@[simp] theorem sortOrd_nil (le : α → α → Bool) : sortOrd le [] = [] := rfl

@[simp] theorem sortOrd_cons (le : α → α → Bool) (x : α) (l : List α) :
    sortOrd le (x :: l) = insertOrd le x (sortOrd le l) := rfl

theorem mem_insertOrd (le : α → α → Bool) (x z : α) (l : List α) :
    z ∈ insertOrd le x l ↔ z = x ∨ z ∈ l := by
  induction l with
  | nil => simp [insertOrd]
  | cons y ys ih =>
    simp only [insertOrd]
    split_ifs
    · simp [or_comm, or_assoc, eq_comm]
    · simp only [List.mem_cons, ih]
      tauto

theorem insertOrd_perm (le : α → α → Bool) (x : α) (l : List α) :
    List.Perm (insertOrd le x l) (x :: l) := by
  induction l with
  | nil => exact List.Perm.refl _
  | cons y ys ih =>
    simp only [insertOrd]
    split_ifs
    · exact List.Perm.refl _
    · exact (ih.cons y).trans (List.Perm.swap x y ys)

theorem sortOrd_perm (le : α → α → Bool) (l : List α) : List.Perm (sortOrd le l) l := by
  induction l with
  | nil => exact List.Perm.refl _
  | cons x xs ih =>
    exact (insertOrd_perm le x (sortOrd le xs)).trans (ih.cons x)

theorem pairwise_insertOrd (le : α → α → Bool)
    (htot : ∀ a b, le a b = true ∨ le b a = true)
    (htrans : ∀ {a b c}, le a b = true → le b c = true → le a c = true)
    (x : α) {l : List α} (h : l.Pairwise (le · · = true)) :
    (insertOrd le x l).Pairwise (le · · = true) := by
  induction l with
  | nil => simp [insertOrd]
  | cons y ys ih =>
    rcases List.pairwise_cons.mp h with ⟨h1, h2⟩
    simp only [insertOrd]
    split_ifs with hle
    · refine List.pairwise_cons.mpr ⟨?_, h⟩
      intro z hz
      rcases List.mem_cons.mp hz with rfl | hz
      · exact hle
      · exact htrans hle (h1 z hz)
    · refine List.pairwise_cons.mpr ⟨?_, ih h2⟩
      intro z hz
      rcases (mem_insertOrd le x z ys).mp hz with rfl | hz
      · rcases htot z y with h' | h'
        · exact absurd h' hle
        · exact h'
      · exact h1 z hz

theorem sortOrd_pairwise (le : α → α → Bool)
    (htot : ∀ a b, le a b = true ∨ le b a = true)
    (htrans : ∀ {a b c}, le a b = true → le b c = true → le a c = true)
    (l : List α) : (sortOrd le l).Pairwise (le · · = true) := by
  induction l with
  | nil => simp
  | cons x xs ih => exact pairwise_insertOrd le htot htrans x ih

theorem sortOrd_of_pairwise (le : α → α → Bool) {l : List α}
    (h : l.Pairwise (le · · = true)) : sortOrd le l = l := by
  induction l with
  | nil => rfl
  | cons x xs ih =>
    rcases List.pairwise_cons.mp h with ⟨h1, h2⟩
    rw [sortOrd_cons, ih h2]
    cases xs with
    | nil => rfl
    | cons y ys =>
      simp only [insertOrd]
      rw [if_pos (h1 y (List.mem_cons_self y ys))]

theorem scanGo_eq_append (incl : α → α → Bool) (l acc : List α) :
    ∃ t, scanGo incl acc l = acc ++ t ∧ t.Sublist l := by
  induction l generalizing acc with
  | nil => exact ⟨[], by simp [scanGo]⟩
  | cons x xs ih =>
    simp only [scanGo]
    split_ifs
    · obtain ⟨t, ht, hs⟩ := ih acc
      exact ⟨t, ht, hs.cons x⟩
    · obtain ⟨t, ht, hs⟩ := ih (acc ++ [x])
      exact ⟨x :: t, by simpa using ht, hs.cons₂ x⟩

theorem scanGo_pairwise (incl : α → α → Bool) (l : List α) {acc : List α}
    (hacc : acc.Pairwise (incl · · = false)) :
    (scanGo incl acc l).Pairwise (incl · · = false) := by
  induction l generalizing acc with
  | nil => exact hacc
  | cons x xs ih =>
    simp only [scanGo]
    split_ifs with hany
    · exact ih hacc
    · refine ih (List.pairwise_append.mpr ⟨hacc, by simp, ?_⟩)
      intro a ha b hb
      have hbx : b = x := List.mem_singleton.mp hb
      have hany' : (acc.any fun u => incl u x) = false := by
        simpa using hany
      rw [hbx]
      simpa using List.any_eq_false.mp hany' a ha

theorem scanGo_of_pairwise (incl : α → α → Bool) {l : List α} (acc : List α)
    (hl : l.Pairwise (incl · · = false))
    (hcross : ∀ b ∈ l, ∀ a ∈ acc, incl a b = false) :
    scanGo incl acc l = acc ++ l := by
  induction l generalizing acc with
  | nil => simp [scanGo]
  | cons x xs ih =>
    rcases List.pairwise_cons.mp hl with ⟨h1, h2⟩
    have hany : ¬ (acc.any fun a => incl a x) = true := by
      simp only [List.any_eq_true, not_exists]
      intro a
      simp only [not_and]
      intro ha
      simp [hcross x (List.mem_cons_self x xs) a ha]
    simp only [scanGo]
    rw [if_neg hany]
    have hc : ∀ b ∈ xs, ∀ a ∈ acc ++ [x], incl a b = false := by
      intro b hb a ha
      rcases List.mem_append.mp ha with ha' | ha'
      · exact hcross b (List.mem_cons_of_mem x hb) a ha'
      · rcases List.mem_singleton.mp ha' with rfl
        exact h1 b hb
    rw [ih (acc ++ [x]) h2 hc]
    simp

theorem scanKeep_sublist (incl : α → α → Bool) (l : List α) :
    (scanKeep incl l).Sublist l := by
  obtain ⟨t, ht, hs⟩ := scanGo_eq_append incl l []
  simpa [scanKeep, ht] using hs

theorem scanKeep_pairwise (incl : α → α → Bool) (l : List α) :
    (scanKeep incl l).Pairwise (incl · · = false) :=
  scanGo_pairwise incl l (by simp)

theorem scanKeep_of_pairwise (incl : α → α → Bool) {l : List α}
    (h : l.Pairwise (incl · · = false)) : scanKeep incl l = l := by
  simpa [scanKeep] using scanGo_of_pairwise incl [] h (by simp)

theorem scanKeep_idem (incl : α → α → Bool) (l : List α) :
    scanKeep incl (scanKeep incl l) = scanKeep incl l :=
  scanKeep_of_pairwise incl (scanKeep_pairwise incl l)

theorem pyEndsWith_length {s suf : String} (h : pyEndsWith s suf = true) :
    suf.data.length ≤ s.data.length := by
  have hs : suf.data <:+ s.data := by
    simpa [pyEndsWith, List.isSuffixOf, List.isPrefixOf_iff_prefix,
      List.reverse_prefix] using h
  exact hs.length_le

theorem dedup_eq_of_ne_combined (rs : RuleSet) (h : rs.Typ ≠ "Combined") :
    rs.dedup = ⟨rs.Typ, scanKeep Rule.includes (sortOrd ruleLe rs.Payload)⟩ := by
  have hb : (rs.Typ == "Combined") = false := beq_eq_false_iff_ne.mpr h
  simp [RuleSet.dedup, RuleSet.sort, hb]

theorem dedup_eq_of_combined (rs : RuleSet) (h : rs.Typ = "Combined") :
    rs.dedup = ⟨rs.Typ, scanKeep Rule.includes rs.Payload⟩ := by
  simp [RuleSet.dedup, RuleSet.sort, h]

theorem sort_key_ds (r : Rule) (h : r.Typ = "DomainSuffix") :
    sort_key r = SKey.tup 0 r.Payload.length r.Payload := by
  simp [sort_key, h]

theorem sort_key_df (r : Rule) (h : r.Typ = "DomainFull") :
    sort_key r = SKey.tup 1 r.Payload.length r.Payload := by
  simp [sort_key, h]

theorem includes_back {a b : Rule}
    (ha : a.Typ = "DomainSuffix" ∨ a.Typ = "DomainFull")
    (hb : b.Typ = "DomainSuffix" ∨ b.Typ = "DomainFull")
    (hle : ruleLe a b = true) (hfwd : a.includes b = false) :
    b.includes a = false := by
  cases hback : Rule.includes b a with
  | false => rfl
  | true =>
    exfalso
    rcases hb with hbT | hbT
    · simp only [Rule.includes] at hback
      rw [if_pos (by simp [hbT])] at hback
      by_cases hpq : b.Payload = a.Payload
      · rcases ha with haT | haT
        · have : a.includes b = true := by
            simp [Rule.includes, haT, hpq]
          rw [this] at hfwd
          exact absurd hfwd (by simp)
        · revert hle
          rw [ruleLe, sort_key_df a haT, sort_key_ds b hbT]
          simp [keyLe]
      · rw [if_neg (by simp [hpq])] at hback
        have hlen : ("." ++ b.Payload).data.length ≤ a.Payload.data.length :=
          pyEndsWith_length hback
        have hlen' : b.Payload.data.length + 1 ≤ a.Payload.data.length := by
          rw [String.data_append] at hlen
          simpa using hlen
        have ea : a.Payload.length = a.Payload.data.length := rfl
        have eb : b.Payload.length = b.Payload.data.length := rfl
        rcases ha with haT | haT
        · revert hle
          rw [ruleLe, sort_key_ds a haT, sort_key_ds b hbT]
          simp only [keyLe, lt_self_iff_false, if_false]
          have hnlt : ¬ a.Payload.length < b.Payload.length := by omega
          have hlt : b.Payload.length < a.Payload.length := by omega
          rw [if_neg hnlt, if_pos hlt]
          simp
        · revert hle
          rw [ruleLe, sort_key_df a haT, sort_key_ds b hbT]
          simp [keyLe]
    · simp only [Rule.includes] at hback
      rw [if_neg (by simp [hbT]), if_pos (by simp [hbT])] at hback
      have h1 : b.Typ = a.Typ ∧ b.Payload = a.Payload := by
        simpa [Rule.pyEq] using hback
      have haT : a.Typ = "DomainFull" := h1.1 ▸ hbT
      have : a.includes b = true := by
        simp [Rule.includes, haT, Rule.pyEq, h1.1.symm, h1.2.symm, hbT]
      rw [this] at hfwd
      exact absurd hfwd (by simp)

/-- C1: on a `Domain` RuleSet holding exactly `DomainSuffix "example.com"`
and `DomainFull "www.example.com"` (either order), `dedup` keeps exactly
the suffix rule; on `DomainSuffix "a.com"` and `DomainSuffix "b.com"`
(either order) it keeps both; and `includes a b` holds exactly when `a`
is a `DomainSuffix` whose payload equals `b`'s or is a dot-separated
suffix of it, or `a` is a `DomainFull` equal to `b`. -/
theorem dedup_subsumption_examples :
    (RuleSet.dedup ⟨"Domain",
        [⟨"DomainSuffix", "example.com", ""⟩, ⟨"DomainFull", "www.example.com", ""⟩]⟩ =
      ⟨"Domain", [⟨"DomainSuffix", "example.com", ""⟩]⟩) ∧
    (RuleSet.dedup ⟨"Domain",
        [⟨"DomainFull", "www.example.com", ""⟩, ⟨"DomainSuffix", "example.com", ""⟩]⟩ =
      ⟨"Domain", [⟨"DomainSuffix", "example.com", ""⟩]⟩) ∧
    (RuleSet.dedup ⟨"Domain",
        [⟨"DomainSuffix", "a.com", ""⟩, ⟨"DomainSuffix", "b.com", ""⟩]⟩ =
      ⟨"Domain", [⟨"DomainSuffix", "a.com", ""⟩, ⟨"DomainSuffix", "b.com", ""⟩]⟩) ∧
    (RuleSet.dedup ⟨"Domain",
        [⟨"DomainSuffix", "b.com", ""⟩, ⟨"DomainSuffix", "a.com", ""⟩]⟩ =
      ⟨"Domain", [⟨"DomainSuffix", "a.com", ""⟩, ⟨"DomainSuffix", "b.com", ""⟩]⟩) ∧
    (∀ a b : Rule, a.includes b = true ↔
      (a.Typ = "DomainSuffix" ∧
        (a.Payload = b.Payload ∨ pyEndsWith b.Payload ("." ++ a.Payload) = true)) ∨
      (a.Typ = "DomainFull" ∧ b.Typ = "DomainFull" ∧ a.Payload = b.Payload)) := by
  refine ⟨by decide, by decide, by decide, by decide, ?_⟩
  intro a b
  by_cases h1 : a.Typ = "DomainSuffix"
  · by_cases h2 : a.Payload = b.Payload <;> simp [Rule.includes, h1, h2]
  · by_cases h3 : a.Typ = "DomainFull"
    · constructor
      · intro h
        simp only [Rule.includes, Rule.pyEq] at h
        rw [if_neg (by simp [h3]), if_pos (by simp [h3])] at h
        rcases (Bool.and_eq_true _ _).mp h with ⟨ht, hp⟩
        exact Or.inr ⟨h3, h3 ▸ (beq_iff_eq.mp ht).symm, beq_iff_eq.mp hp⟩
      · rintro (⟨hT, _⟩ | ⟨_, hbT, hp⟩)
        · exact absurd hT h1
        · simp [Rule.includes, h1, h3, Rule.pyEq, hbT, hp]
    · simp [Rule.includes, h1, h3]

/-- C5: on a `Domain` or `IPCIDR` RuleSet whose payload satisfies the
homogeneity invariant, `dedup` is idempotent:
`dedup (dedup X) = dedup X`. -/
theorem dedup_idempotent (rs : RuleSet)
    (h : (rs.Typ = "Domain" ∧
            ∀ r ∈ rs.Payload, r.Typ = "DomainSuffix" ∨ r.Typ = "DomainFull") ∨
         (rs.Typ = "IPCIDR" ∧
            ∀ r ∈ rs.Payload, r.Typ = "IPCIDR" ∨ r.Typ = "IPCIDR6")) :
    rs.dedup.dedup = rs.dedup := by
  have hT : rs.Typ ≠ "Combined" := by
    rcases h with ⟨h1, _⟩ | ⟨h1, _⟩ <;> simp [h1]
  rw [dedup_eq_of_ne_combined rs hT]
  rw [dedup_eq_of_ne_combined ⟨rs.Typ, scanKeep Rule.includes (sortOrd ruleLe rs.Payload)⟩ hT]
  have hs : (scanKeep Rule.includes (sortOrd ruleLe rs.Payload)).Pairwise (ruleLe · · = true) :=
    (sortOrd_pairwise ruleLe ruleLe_total (fun h1 h2 => ruleLe_trans h1 h2)
      rs.Payload).sublist (scanKeep_sublist _ _)
  rw [RuleSet.mk.injEq]
  refine ⟨rfl, ?_⟩
  rw [sortOrd_of_pairwise ruleLe hs, scanKeep_idem]

/-- Witness for `dedup_idempotent` at a concrete Domain RuleSet. -/
theorem dedup_idempotent_witness :
    (RuleSet.dedup (RuleSet.dedup ⟨"Domain",
      [⟨"DomainSuffix", "example.com", ""⟩, ⟨"DomainFull", "www.example.com", ""⟩]⟩)) =
    RuleSet.dedup ⟨"Domain",
      [⟨"DomainSuffix", "example.com", ""⟩, ⟨"DomainFull", "www.example.com", ""⟩]⟩ :=
  dedup_idempotent ⟨"Domain",
    [⟨"DomainSuffix", "example.com", ""⟩, ⟨"DomainFull", "www.example.com", ""⟩]⟩
    (Or.inl ⟨rfl, by decide⟩)

/-- C10: on a `Domain` RuleSet satisfying the homogeneity invariant,
`dedup` only keeps rules present in the original payload, and the result
holds no two distinct rules where one `includes` the other (in either
direction). -/
theorem dedup_minimal (rs : RuleSet) (hT : rs.Typ = "Domain")
    (hk : ∀ r ∈ rs.Payload, r.Typ = "DomainSuffix" ∨ r.Typ = "DomainFull") :
    (∀ r ∈ rs.dedup.Payload, r ∈ rs.Payload) ∧
    rs.dedup.Payload.Pairwise
      (fun a b => a.includes b = false ∧ b.includes a = false) := by
  have hT' : rs.Typ ≠ "Combined" := by simp [hT]
  rw [dedup_eq_of_ne_combined rs hT']
  have hmem : ∀ r ∈ scanKeep Rule.includes (sortOrd ruleLe rs.Payload), r ∈ rs.Payload := by
    intro r hr
    have h1 : r ∈ sortOrd ruleLe rs.Payload := (scanKeep_sublist _ _).subset hr
    exact (sortOrd_perm ruleLe rs.Payload).subset h1
  refine ⟨hmem, ?_⟩
  have hfwd : (scanKeep Rule.includes (sortOrd ruleLe rs.Payload)).Pairwise
      (fun a b => Rule.includes a b = false) := scanKeep_pairwise _ _
  have hsorted : (scanKeep Rule.includes (sortOrd ruleLe rs.Payload)).Pairwise
      (ruleLe · · = true) :=
    (sortOrd_pairwise ruleLe ruleLe_total (fun h1 h2 => ruleLe_trans h1 h2)
      rs.Payload).sublist (scanKeep_sublist _ _)
  refine (hfwd.and hsorted).imp_of_mem ?_
  intro a b hma hmb hab
  exact ⟨hab.1, includes_back (hk a (hmem a hma)) (hk b (hmem b hmb)) hab.2 hab.1⟩

/-- Witness for `dedup_minimal` at a concrete Domain RuleSet. -/
theorem dedup_minimal_witness :
    (∀ r ∈ (RuleSet.dedup ⟨"Domain",
        [⟨"DomainFull", "www.example.com", ""⟩, ⟨"DomainSuffix", "example.com", ""⟩]⟩).Payload,
      r ∈ [⟨"DomainFull", "www.example.com", ""⟩, (⟨"DomainSuffix", "example.com", ""⟩ : Rule)]) ∧
    (RuleSet.dedup ⟨"Domain",
        [⟨"DomainFull", "www.example.com", ""⟩, ⟨"DomainSuffix", "example.com", ""⟩]⟩).Payload.Pairwise
      (fun a b => a.includes b = false ∧ b.includes a = false) :=
  dedup_minimal ⟨"Domain",
    [⟨"DomainFull", "www.example.com", ""⟩, ⟨"DomainSuffix", "example.com", ""⟩]⟩
    rfl (by decide)

/-- C3 (amended): `dedup` on a `Combined` RuleSet skips the sorting step
but still runs the subsumption scan: the type is kept, the resulting
payload is the scan of the original payload, and it is an
order-preserving sublist of the original (identical exactly when no kept
rule includes a later one). -/
theorem dedup_combined_scans (rs : RuleSet) (h : rs.Typ = "Combined") :
    rs.dedup.Typ = rs.Typ ∧
    rs.dedup.Payload = scanKeep Rule.includes rs.Payload ∧
    rs.dedup.Payload.Sublist rs.Payload := by
  rw [dedup_eq_of_combined rs h]
  exact ⟨rfl, rfl, scanKeep_sublist _ _⟩

/-- Witness for `dedup_combined_scans` at a concrete Combined RuleSet. -/
theorem dedup_combined_scans_witness :
    (RuleSet.dedup ⟨"Combined", [⟨"IPCIDR", "1.0.0.0/8", ""⟩]⟩).Typ = "Combined" ∧
    (RuleSet.dedup ⟨"Combined", [⟨"IPCIDR", "1.0.0.0/8", ""⟩]⟩).Payload =
      scanKeep Rule.includes [⟨"IPCIDR", "1.0.0.0/8", ""⟩] ∧
    (RuleSet.dedup ⟨"Combined", [⟨"IPCIDR", "1.0.0.0/8", ""⟩]⟩).Payload.Sublist
      [⟨"IPCIDR", "1.0.0.0/8", ""⟩] :=
  dedup_combined_scans ⟨"Combined", [⟨"IPCIDR", "1.0.0.0/8", ""⟩]⟩ rfl

/-- C3 counterexample: `dedup` on a `Combined` RuleSet is not a no-op —
with payload `[DomainSuffix "a.com", DomainFull "www.a.com"]` the scan
still removes the subsumed full domain. -/
theorem dedup_combined_changes_payload :
    (RuleSet.dedup ⟨"Combined",
        [⟨"DomainSuffix", "a.com", ""⟩, ⟨"DomainFull", "www.a.com", ""⟩]⟩).Payload ≠
      [⟨"DomainSuffix", "a.com", ""⟩, ⟨"DomainFull", "www.a.com", ""⟩] := by
  decide

theorem mkRule_ds (p t : String) :
    mkRule "DomainSuffix" p t =
      if is_domain p then some ⟨"DomainSuffix", p, t⟩ else none := by
  rw [mkRule, if_neg (by simp), if_neg (by decide), if_pos (by decide)]

theorem mkRule_df (p t : String) :
    mkRule "DomainFull" p t =
      if is_domain p then some ⟨"DomainFull", p, t⟩ else none := by
  rw [mkRule, if_neg (by simp), if_neg (by decide), if_pos (by decide)]

theorem mkRule_ip4 (p t : String) :
    mkRule "IPCIDR" p t =
      if ip_network_valid p then some ⟨"IPCIDR", p, t⟩ else none := by
  rw [mkRule, if_neg (by simp), if_neg (by decide), if_neg (by decide), if_pos (by decide)]

theorem mkRule_ip6 (p t : String) :
    mkRule "IPCIDR6" p t =
      if ip_network_valid p then some ⟨"IPCIDR6", p, t⟩ else none := by
  rw [mkRule, if_neg (by simp), if_neg (by decide), if_neg (by decide), if_pos (by decide)]

/-- C2 (amended): the homogeneity validation lives in
`RuleSet.set_payload` (and hence in the constructor): replacing the
payload of a `Domain`-kind RuleSet by a list holding an `IPCIDR` or
`IPCIDR6` rule fails with a validation error raised before the payload
is assigned, and constructing such a RuleSet fails the same way; the
low-level `add` method by contrast appends without validation. -/
theorem set_payload_domain_rejects_ip (rs : RuleSet) (payload : List Rule) (r : Rule)
    (hT : rs.Typ = "Domain") (hr : r ∈ payload)
    (hk : r.Typ = "IPCIDR" ∨ r.Typ = "IPCIDR6") :
    rs.set_payload payload = none ∧ mkRuleSet "Domain" payload = none := by
  have hpy : pyIn "Domain" r.Typ = false := by
    rcases hk with h | h <;> rw [h] <;> decide
  have hok : payloadOk "Domain" payload = false := by
    simp only [payloadOk]
    rw [if_pos (by decide)]
    refine List.all_eq_false.mpr ⟨r, hr, ?_⟩
    simp [hpy]
  constructor
  · simp [RuleSet.set_payload, hT, hok]
  · rw [mkRuleSet, if_neg ?_, if_neg (by decide)]
    · simp [RuleSet.set_payload, hok]
    · simp

/-- Witness for `set_payload_domain_rejects_ip` at concrete inputs. -/
theorem set_payload_domain_rejects_ip_witness :
    RuleSet.set_payload ⟨"Domain", []⟩ [⟨"IPCIDR", "1.0.0.0/8", ""⟩] = none ∧
    mkRuleSet "Domain" [⟨"IPCIDR", "1.0.0.0/8", ""⟩] = none :=
  set_payload_domain_rejects_ip ⟨"Domain", []⟩ [⟨"IPCIDR", "1.0.0.0/8", ""⟩]
    ⟨"IPCIDR", "1.0.0.0/8", ""⟩ rfl (by decide) (Or.inl rfl)

/-- C2 counterexample: `RuleSet.add` performs no validation — appending
an `IPCIDR` rule to a `Domain`-kind RuleSet succeeds and changes the
payload, rather than failing with a validation error and leaving the
payload unchanged. -/
theorem add_ipcidr_to_domain_succeeds :
    (RuleSet.add ⟨"Domain", []⟩ ⟨"IPCIDR", "1.0.0.0/8", ""⟩).Payload =
      [⟨"IPCIDR", "1.0.0.0/8", ""⟩] := rfl

/-- C4 (amended): whenever the constructor is given a nonempty type or
payload it validates — domain kinds reject any payload failing
`is_domain`, IP kinds reject any payload failing the CIDR/IP check, and
every rule built on this path has an enumerated kind whose payload
passed its kind's check.  (The no-argument constructor path, by
contrast, builds an empty Rule; see the counterexample.) -/
theorem mkRule_validates :
    (∀ p t, is_domain p = false →
       mkRule "DomainSuffix" p t = none ∧ mkRule "DomainFull" p t = none) ∧
    (∀ p t, ip_network_valid p = false →
       mkRule "IPCIDR" p t = none ∧ mkRule "IPCIDR6" p t = none) ∧
    (∀ ty p t r, mkRule ty p t = some r → (ty ≠ "" ∨ p ≠ "") →
       allowed_rule_types.contains r.Typ = true ∧
       (pyIn "Domain" r.Typ = true → is_domain r.Payload = true) ∧
       (pyIn "IP" r.Typ = true → ip_network_valid r.Payload = true)) := by
  refine ⟨?_, ?_, ?_⟩
  · intro p t h
    constructor
    · rw [mkRule_ds, if_neg (by simp [h])]
    · rw [mkRule_df, if_neg (by simp [h])]
  · intro p t h
    constructor
    · rw [mkRule_ip4, if_neg (by simp [h])]
    · rw [mkRule_ip6, if_neg (by simp [h])]
  · intro ty p t r hsome hne
    by_cases h0 : (ty == "" && p == "") = true
    · exfalso
      rcases (Bool.and_eq_true _ _).mp h0 with ⟨h1, h2⟩
      rcases hne with h | h
      · exact h (beq_iff_eq.mp h1)
      · exact h (beq_iff_eq.mp h2)
    · by_cases h1 : (!allowed_rule_types.contains ty) = true
      · rw [mkRule, if_neg h0, if_pos h1] at hsome
        exact absurd hsome (by simp)
      · have h1' : allowed_rule_types.contains ty = true := by simpa using h1
        have hmem : ty ∈ allowed_rule_types := List.mem_of_elem_eq_true h1'
        have hcases : ty = "DomainSuffix" ∨ ty = "DomainFull" ∨
            ty = "IPCIDR" ∨ ty = "IPCIDR6" := by
          simpa [allowed_rule_types] using hmem
        rcases hcases with rfl | rfl | rfl | rfl
        · rw [mkRule_ds] at hsome
          by_cases hd : is_domain p = true
          · rw [if_pos hd] at hsome
            obtain rfl : (⟨"DomainSuffix", p, t⟩ : Rule) = r := by
              injection hsome
            refine ⟨?_, fun _ => hd, fun hh => ?_⟩
            · show allowed_rule_types.contains "DomainSuffix" = true
              decide
            · have hclosed : pyIn "IP" "DomainSuffix" = true := hh
              exact absurd hclosed (by decide)
          · rw [if_neg hd] at hsome
            exact absurd hsome (by simp)
        · rw [mkRule_df] at hsome
          by_cases hd : is_domain p = true
          · rw [if_pos hd] at hsome
            obtain rfl : (⟨"DomainFull", p, t⟩ : Rule) = r := by
              injection hsome
            refine ⟨?_, fun _ => hd, fun hh => ?_⟩
            · show allowed_rule_types.contains "DomainFull" = true
              decide
            · have hclosed : pyIn "IP" "DomainFull" = true := hh
              exact absurd hclosed (by decide)
          · rw [if_neg hd] at hsome
            exact absurd hsome (by simp)
        · rw [mkRule_ip4] at hsome
          by_cases hd : ip_network_valid p = true
          · rw [if_pos hd] at hsome
            obtain rfl : (⟨"IPCIDR", p, t⟩ : Rule) = r := by
              injection hsome
            refine ⟨?_, fun hh => ?_, fun _ => hd⟩
            · show allowed_rule_types.contains "IPCIDR" = true
              decide
            · have hclosed : pyIn "Domain" "IPCIDR" = true := hh
              exact absurd hclosed (by decide)
          · rw [if_neg hd] at hsome
            exact absurd hsome (by simp)
        · rw [mkRule_ip6] at hsome
          by_cases hd : ip_network_valid p = true
          · rw [if_pos hd] at hsome
            obtain rfl : (⟨"IPCIDR6", p, t⟩ : Rule) = r := by
              injection hsome
            refine ⟨?_, fun hh => ?_, fun _ => hd⟩
            · show allowed_rule_types.contains "IPCIDR6" = true
              decide
            · have hclosed : pyIn "Domain" "IPCIDR6" = true := hh
              exact absurd hclosed (by decide)
          · rw [if_neg hd] at hsome
            exact absurd hsome (by simp)

/-- Witness for `mkRule_validates` at concrete invalid payloads. -/
theorem mkRule_validates_witness :
    mkRule "DomainSuffix" "bad_domain" "" = none ∧
    mkRule "IPCIDR" "999.1.1.1" "" = none :=
  ⟨(mkRule_validates.1 "bad_domain" "" (by decide)).1,
   (mkRule_validates.2.1 "999.1.1.1" "" (by decide)).1⟩

/-- C4 counterexample: the no-argument constructor path is reachable —
`Rule("", "")` builds an empty Rule whose kind `""` is not in the
enumerated set, so an empty Rule is representable. -/
theorem mkRule_empty_rule_representable :
    mkRule "" "" "" = some ⟨"", "", ""⟩ ∧
    allowed_rule_types.contains "" = false := by
  decide

theorem pyEq_iff {a b : Rule} : a.pyEq b = true ↔ a.Typ = b.Typ ∧ a.Payload = b.Payload := by
  simp [Rule.pyEq]

theorem pyEq_trans {a b c : Rule} (h1 : a.pyEq b = true) (h2 : b.pyEq c = true) :
    a.pyEq c = true := by
  rcases pyEq_iff.mp h1 with ⟨e1, e2⟩
  rcases pyEq_iff.mp h2 with ⟨e3, e4⟩
  exact pyEq_iff.mpr ⟨e1.trans e3, e2.trans e4⟩

theorem pyEq_symm (a b : Rule) : a.pyEq b = b.pyEq a := by
  cases hab : Rule.pyEq a b <;> cases hba : Rule.pyEq b a <;> try rfl
  · rcases pyEq_iff.mp hba with ⟨e1, e2⟩
    have h : a.pyEq b = true := pyEq_iff.mpr ⟨e1.symm, e2.symm⟩
    rw [hab] at h
    exact h
  · rcases pyEq_iff.mp hab with ⟨e1, e2⟩
    have h : b.pyEq a = true := pyEq_iff.mpr ⟨e1.symm, e2.symm⟩
    rw [hba] at h
    exact h.symm

theorem pyMem_cons (r y : Rule) (l : List Rule) :
    pyMem r (y :: l) = (y.pyEq r || pyMem r l) := by
  simp [pyMem]

theorem pyMem_append_single (r : Rule) (l : List Rule) (x : Rule) :
    pyMem r (l ++ [x]) = (pyMem r l || x.pyEq r) := by
  simp [pyMem, List.any_append]

theorem pyMem_of_pyEq {x r : Rule} {l : List Rule} (h : x.pyEq r = true)
    (hm : pyMem x l = true) : pyMem r l = true := by
  simp only [pyMem, List.any_eq_true] at hm ⊢
  obtain ⟨a, ha, he⟩ := hm
  exact ⟨a, ha, pyEq_trans he h⟩

theorem pyMem_false_of_pyEq {x r : Rule} {l : List Rule} (h : x.pyEq r = true)
    (hm : pyMem x l = false) : pyMem r l = false := by
  cases hr : pyMem r l with
  | false => rfl
  | true =>
    have hx : r.pyEq x = true := by rw [← pyEq_symm]; exact h
    have hcontr := pyMem_of_pyEq hx hr
    rw [hm] at hcontr
    exact hcontr.symm

theorem pyRemove_sublist (l : List Rule) (x : Rule) : (pyRemove l x).Sublist l := by
  induction l with
  | nil => simp [pyRemove]
  | cons y ys ih =>
    simp only [pyRemove]
    split_ifs
    · exact (List.Sublist.refl ys).cons y
    · exact ih.cons₂ y

theorem pyRemove_of_not_mem {l : List Rule} {x : Rule} (h : pyMem x l = false) :
    pyRemove l x = l := by
  induction l with
  | nil => rfl
  | cons y ys ih =>
    rw [pyMem_cons] at h
    rcases Bool.or_eq_false_iff.mp h with ⟨h1, h2⟩
    simp only [pyRemove]
    rw [if_neg (by simp [h1]), ih h2]

theorem pyMem_pyRemove {l : List Rule}
    (hnd : l.Pairwise (fun a b => a.pyEq b = false)) (x r : Rule) :
    pyMem r (pyRemove l x) = (pyMem r l && !(x.pyEq r)) := by
  induction l with
  | nil => simp [pyRemove, pyMem]
  | cons y ys ih =>
    rcases List.pairwise_cons.mp hnd with ⟨h1, h2⟩
    simp only [pyRemove]
    by_cases hyx : y.pyEq x = true
    · rw [if_pos (by simp [hyx])]
      by_cases hxr : x.pyEq r = true
      · have hyr : y.pyEq r = true := pyEq_trans hyx hxr
        have hys : pyMem r ys = false := by
          cases hm : pyMem r ys with
          | false => rfl
          | true =>
            exfalso
            simp only [pyMem, List.any_eq_true] at hm
            obtain ⟨a, ha, he⟩ := hm
            have hya : y.pyEq a = true :=
              pyEq_trans hyr (by rw [← pyEq_symm]; exact he)
            rw [h1 a ha] at hya
            exact absurd hya (by simp)
        rw [hys, pyMem_cons, hxr]
        simp
      · have hyr : y.pyEq r = false := by
          cases hq : Rule.pyEq y r with
          | false => rfl
          | true =>
            exfalso
            have : x.pyEq r = true :=
              pyEq_trans (by rw [← pyEq_symm]; exact hyx) hq
            exact hxr this
        rw [pyMem_cons, hyr]
        simp [hxr]
    · rw [if_neg (by simp [hyx])]
      rw [pyMem_cons, ih h2, pyMem_cons]
      by_cases hxr : x.pyEq r = true
      · have hyr : y.pyEq r = false := by
          cases hq : Rule.pyEq y r with
          | false => rfl
          | true =>
            exfalso
            have : y.pyEq x = true :=
              pyEq_trans hq (by rw [← pyEq_symm]; exact hxr)
            exact hyx this
        rw [hyr, hxr]
        simp
      · have hxr' : x.pyEq r = false := by simpa using hxr
        rw [hxr']
        simp

theorem patchStep_true (s : List Rule) (x : Rule) :
    patchStep s (true, x) = if pyMem x s then s else s ++ [x] := by
  simp [patchStep]

theorem patchStep_false (s : List Rule) (x : Rule) :
    patchStep s (false, x) = if pyMem x s then pyRemove s x else s := by
  simp [patchStep]

theorem patchStep_nodup {s : List Rule}
    (hnd : s.Pairwise (fun a b => a.pyEq b = false)) (op : Bool × Rule) :
    (patchStep s op).Pairwise (fun a b => a.pyEq b = false) := by
  obtain ⟨isAdd, x⟩ := op
  cases isAdd with
  | true =>
    rw [patchStep_true]
    split_ifs with hm
    · exact hnd
    · refine List.pairwise_append.mpr ⟨hnd, by simp, ?_⟩
      intro a ha b hb
      have hbx : b = x := List.mem_singleton.mp hb
      have hm' : pyMem x s = false := by simpa using hm
      simp only [pyMem, List.any_eq_false] at hm'
      rw [hbx]
      simpa using hm' a ha
  | false =>
    rw [patchStep_false]
    split_ifs with hm
    · exact hnd.sublist (pyRemove_sublist s x)
    · exact hnd

theorem pyMem_patchStep {s : List Rule}
    (hnd : s.Pairwise (fun a b => a.pyEq b = false)) (isAdd : Bool) (x r : Rule) :
    pyMem r (patchStep s (isAdd, x)) =
      (if x.pyEq r = true then isAdd else pyMem r s) := by
  cases isAdd with
  | true =>
    rw [patchStep_true]
    split_ifs with hm hxr hxr
    · exact pyMem_of_pyEq hxr hm
    · rfl
    · rw [pyMem_append_single, hxr]
      simp
    · rw [pyMem_append_single]
      have : x.pyEq r = false := by simpa using hxr
      rw [this]
      simp
  | false =>
    rw [patchStep_false]
    split_ifs with hm hxr hxr
    · rw [pyMem_pyRemove hnd, hxr]
      simp
    · rw [pyMem_pyRemove hnd]
      have : x.pyEq r = false := by simpa using hxr
      rw [this]
      simp
    · exact pyMem_false_of_pyEq hxr (by simpa using hm)
    · rfl

theorem applyPatchLines_spec (lines : List String) :
    ∀ s t, applyPatchLines lines s = some t →
      s.Pairwise (fun a b => a.pyEq b = false) →
      t.Pairwise (fun a b => a.pyEq b = false) ∧
        ∀ r, pyMem r t = patchAuto lines r (pyMem r s) := by
  induction lines with
  | nil =>
    intro s t ht hnd
    obtain rfl : s = t := by simpa [applyPatchLines] using ht
    exact ⟨hnd, fun r => rfl⟩
  | cons line rest ih =>
    intro s t ht hnd
    simp only [applyPatchLines] at ht
    cases hp : parsePatchLine line with
    | none => rw [hp] at ht; exact absurd ht (by simp)
    | some inner =>
      cases inner with
      | none =>
        rw [hp] at ht
        obtain ⟨hnd', hmem⟩ := ih s t ht hnd
        refine ⟨hnd', fun r => ?_⟩
        rw [hmem r]
        simp only [patchAuto, List.foldl_cons, lineEffect, hp]
      | some op =>
        rw [hp] at ht
        obtain ⟨isAdd, x⟩ := op
        obtain ⟨hnd', hmem⟩ := ih (patchStep s (isAdd, x)) t ht (patchStep_nodup hnd _)
        refine ⟨hnd', fun r => ?_⟩
        rw [hmem r, pyMem_patchStep hnd]
        simp only [patchAuto, List.foldl_cons, lineEffect, hp]

theorem applyPatchLines_isSome (lines : List String) :
    ∀ s t s', applyPatchLines lines s = some t →
      (applyPatchLines lines s').isSome := by
  induction lines with
  | nil => intro s t s' _; simp [applyPatchLines]
  | cons line rest ih =>
    intro s t s' ht
    simp only [applyPatchLines] at ht ⊢
    cases hp : parsePatchLine line with
    | none => rw [hp] at ht; exact absurd ht (by simp)
    | some inner =>
      rw [hp] at ht
      cases inner with
      | none => exact ih s t s' ht
      | some op => exact ih (patchStep s op) t (patchStep s' op) ht

theorem patchAuto_append (lines : List String) (line : String) (r : Rule) (b : Bool) :
    patchAuto (lines ++ [line]) r b = lineEffect line r (patchAuto lines r b) := by
  simp [patchAuto, List.foldl_append]

theorem patchAuto_idem (lines : List String) (r : Rule) (b : Bool) :
    patchAuto lines r (patchAuto lines r b) = patchAuto lines r b := by
  induction lines using List.reverseRecOn with
  | nil => rfl
  | append_singleton init last ih =>
    rw [patchAuto_append, patchAuto_append]
    cases hp : parsePatchLine last with
    | none => simp only [lineEffect, hp]; exact ih
    | some inner =>
      cases inner with
      | none => simp only [lineEffect, hp]; exact ih
      | some op =>
        obtain ⟨isAdd, x⟩ := op
        by_cases hxr : x.pyEq r = true
        · simp only [lineEffect, hp, if_pos hxr]
        · simp only [lineEffect, hp, if_neg hxr]
          exact ih

/-- C6 (amended): a missing patch file leaves the RuleSet unchanged,
and on a RuleSet whose payload holds no duplicate rules (by
`Rule.__eq__`) applying a patch twice yields a RuleSet of the same type
holding exactly the same rules as applying it once — the membership of
every rule is unchanged by the second application, though the second
application may reorder the payload (see the counterexample). -/
theorem apply_patch_idempotent_members (patch : Option (List String)) (src : RuleSet)
    (hnd : src.Payload.Pairwise (fun a b => a.pyEq b = false)) :
    apply_patch none src = some src ∧
    ∀ t, apply_patch patch src = some t →
      ∃ t2, apply_patch patch t = some t2 ∧ t2.Typ = t.Typ ∧
        ∀ r, pyMem r t2.Payload = pyMem r t.Payload := by
  refine ⟨rfl, ?_⟩
  intro t ht
  cases patch with
  | none =>
    obtain rfl : src = t := by simpa [apply_patch] using ht
    exact ⟨src, rfl, rfl, fun r => rfl⟩
  | some lines =>
    simp only [apply_patch, Option.map_eq_some'] at ht
    obtain ⟨p, hp, rfl⟩ := ht
    obtain ⟨hnd', hmem⟩ := applyPatchLines_spec lines src.Payload p hp hnd
    have hsome : (applyPatchLines lines p).isSome :=
      applyPatchLines_isSome lines src.Payload p p hp
    obtain ⟨p2, hp2⟩ := Option.isSome_iff_exists.mp hsome
    obtain ⟨hnd2, hmem2⟩ := applyPatchLines_spec lines p p2 hp2 hnd'
    refine ⟨{ src with Payload := p2 }, ?_, rfl, ?_⟩
    · simp [apply_patch, hp2]
    · intro r
      rw [hmem2 r, hmem r, patchAuto_idem]

/-- Witness for `apply_patch_idempotent_members` at a concrete patch and
RuleSet. -/
theorem apply_patch_idempotent_members_witness :
    ∃ t2, apply_patch (some ["ADD:x.com"]) ⟨"Domain", [⟨"DomainFull", "x.com", ""⟩]⟩ = some t2 ∧
      t2.Typ = (⟨"Domain", [⟨"DomainFull", "x.com", ""⟩]⟩ : RuleSet).Typ ∧
      ∀ r, pyMem r t2.Payload = pyMem r [⟨"DomainFull", "x.com", ""⟩] :=
  (apply_patch_idempotent_members (some ["ADD:x.com"]) ⟨"Domain", []⟩ (by decide)).2
    ⟨"Domain", [⟨"DomainFull", "x.com", ""⟩]⟩ (by decide)

/-- C6 counterexample: the second application of a patch can reorder the
payload, so the resulting RuleSet is not equal to the once-patched one:
with payload `[x.com]` and patch `REM:x.com, ADD:x.com, ADD:y.com`, one
application gives `[x.com, y.com]` but a second gives
`[y.com, x.com]`. -/
theorem apply_patch_not_idempotent :
    apply_patch (some ["REM:x.com", "ADD:x.com", "ADD:y.com"])
        ⟨"Domain", [⟨"DomainFull", "x.com", ""⟩]⟩ =
      some ⟨"Domain", [⟨"DomainFull", "x.com", ""⟩, ⟨"DomainFull", "y.com", ""⟩]⟩ ∧
    apply_patch (some ["REM:x.com", "ADD:x.com", "ADD:y.com"])
        ⟨"Domain", [⟨"DomainFull", "x.com", ""⟩, ⟨"DomainFull", "y.com", ""⟩]⟩ =
      some ⟨"Domain", [⟨"DomainFull", "y.com", ""⟩, ⟨"DomainFull", "x.com", ""⟩]⟩ ∧
    (⟨"Domain", [⟨"DomainFull", "x.com", ""⟩, ⟨"DomainFull", "y.com", ""⟩]⟩ : RuleSet) ≠
      ⟨"Domain", [⟨"DomainFull", "y.com", ""⟩, ⟨"DomainFull", "x.com", ""⟩]⟩ := by
  refine ⟨by decide, by decide, by decide⟩

theorem parse_cons_skip (store : String → List String) (excl : List String) (fuel : Nat)
    (raw : String) (rest : List String) (h : classifyLine raw = GLine.skip) :
    parse store excl fuel (raw :: rest) = parse store excl fuel rest := by
  rw [parse, h]

theorem parse_cons_rule (store : String → List String) (excl : List String) (fuel : Nat)
    (raw : String) (rest : List String) (g : GRule) (h : classifyLine raw = GLine.rule g) :
    parse store excl fuel (raw :: rest) =
      (parse store excl fuel rest).map fun t => g :: t := by
  rw [parse, h]

theorem parse_cons_incl_mem (store : String → List String) (excl : List String) (fuel : Nat)
    (raw : String) (rest : List String) (nm : String) (h : classifyLine raw = GLine.incl nm)
    (hm : nm ∈ excl) :
    parse store excl fuel (raw :: rest) = parse store excl fuel rest := by
  rw [parse, h]
  dsimp only
  rw [if_pos hm]

theorem parse_cons_incl_zero (store : String → List String) (excl : List String)
    (raw : String) (rest : List String) (nm : String) (h : classifyLine raw = GLine.incl nm)
    (hm : nm ∉ excl) :
    parse store excl 0 (raw :: rest) = none := by
  rw [parse, h]
  dsimp only
  rw [if_neg hm]

theorem parse_cons_incl_succ (store : String → List String) (excl : List String) (f : Nat)
    (raw : String) (rest : List String) (nm : String) (h : classifyLine raw = GLine.incl nm)
    (hm : nm ∉ excl) :
    parse store excl (f + 1) (raw :: rest) =
      match parse store excl f ((store nm).dedup) with
      | none => none
      | some sub => (parse store excl (f + 1) rest).map fun t => sub ++ t := by
  rw [parse, h]
  dsimp only
  rw [if_neg hm]

theorem mem_includeTargets_of_rest {raw : String} {rest : List String} {m : String}
    (hm : m ∈ includeTargets rest) : m ∈ includeTargets (raw :: rest) := by
  simp only [includeTargets, List.filterMap_cons] at hm ⊢
  cases classifyLine raw <;> simp_all

theorem mem_includeTargets_head {raw : String} {rest : List String} {nm : String}
    (h : classifyLine raw = GLine.incl nm) : nm ∈ includeTargets (raw :: rest) := by
  simp [includeTargets, List.filterMap_cons, h]

/-- C7: with a name `nm` in the exclusion set, resolving any source is
identical to resolving the same source with every `include:nm` line
deleted; the exclusion set is threaded unchanged through every
recursive call, so the same holds at every depth. -/
theorem parse_exclusion (store : String → List String) (excl : List String) (nm : String)
    (hnm : nm ∈ excl) (fuel : Nat) (src : List String) :
    parse store excl fuel src =
      parse store excl fuel
        (src.filter fun raw => !(classifyLine raw == GLine.incl nm)) := by
  induction src with
  | nil => rfl
  | cons raw rest ih =>
    rw [List.filter_cons]
    by_cases h : classifyLine raw = GLine.incl nm
    · rw [if_neg (by simp [h])]
      rw [parse_cons_incl_mem store excl fuel raw rest nm h hnm]
      exact ih
    · rw [if_pos (by simp [h])]
      cases hc : classifyLine raw with
      | skip =>
        rw [parse_cons_skip store excl fuel raw rest hc,
          parse_cons_skip store excl fuel raw _ hc]
        exact ih
      | rule g =>
        rw [parse_cons_rule store excl fuel raw rest g hc,
          parse_cons_rule store excl fuel raw _ g hc]
        rw [ih]
      | incl name =>
        by_cases hmem : name ∈ excl
        · rw [parse_cons_incl_mem store excl fuel raw rest name hc hmem,
            parse_cons_incl_mem store excl fuel raw _ name hc hmem]
          exact ih
        · cases fuel with
          | zero =>
            rw [parse_cons_incl_zero store excl raw rest name hc hmem,
              parse_cons_incl_zero store excl raw _ name hc hmem]
          | succ f =>
            rw [parse_cons_incl_succ store excl f raw rest name hc hmem,
              parse_cons_incl_succ store excl f raw _ name hc hmem]
            rw [ih]

/-- Witness for `parse_exclusion` at a concrete source and exclusion. -/
theorem parse_exclusion_witness :
    parse (fun _ => []) ["listB"] 1 ["a.com", "include:listB"] =
      parse (fun _ => []) ["listB"] 1
        (["a.com", "include:listB"].filter fun raw =>
          !(classifyLine raw == GLine.incl "listB")) :=
  parse_exclusion (fun _ => []) ["listB"] "listB" (by simp) 1
    ["a.com", "include:listB"]

theorem parse_terminates_of_ranked (store : String → List String) (excl : List String)
    (rank : String → Nat)
    (hrank : ∀ n m, m ∈ includeTargets ((store n).dedup) → m ∉ excl → rank m < rank n) :
    ∀ fuel src, (∀ m ∈ includeTargets src, m ∉ excl → rank m < fuel) →
      (parse store excl fuel src).isSome := by
  intro fuel
  induction fuel with
  | zero =>
    intro src
    induction src with
    | nil =>
      intro _
      rw [parse]
      rfl
    | cons raw rest ihs =>
      intro hsrc
      have hrest : ∀ m ∈ includeTargets rest, m ∉ excl → rank m < 0 :=
        fun m hm hne => hsrc m (mem_includeTargets_of_rest hm) hne
      cases hc : classifyLine raw with
      | skip =>
        rw [parse_cons_skip store excl 0 raw rest hc]
        exact ihs hrest
      | rule g =>
        rw [parse_cons_rule store excl 0 raw rest g hc]
        simpa using ihs hrest
      | incl name =>
        by_cases hmem : name ∈ excl
        · rw [parse_cons_incl_mem store excl 0 raw rest name hc hmem]
          exact ihs hrest
        · exact absurd (hsrc name (mem_includeTargets_head hc) hmem) (by omega)
  | succ f ihf =>
    intro src
    induction src with
    | nil =>
      intro _
      rw [parse]
      rfl
    | cons raw rest ihs =>
      intro hsrc
      have hrest : ∀ m ∈ includeTargets rest, m ∉ excl → rank m < f + 1 :=
        fun m hm hne => hsrc m (mem_includeTargets_of_rest hm) hne
      cases hc : classifyLine raw with
      | skip =>
        rw [parse_cons_skip store excl (f + 1) raw rest hc]
        exact ihs hrest
      | rule g =>
        rw [parse_cons_rule store excl (f + 1) raw rest g hc]
        simpa using ihs hrest
      | incl name =>
        by_cases hmem : name ∈ excl
        · rw [parse_cons_incl_mem store excl (f + 1) raw rest name hc hmem]
          exact ihs hrest
        · rw [parse_cons_incl_succ store excl f raw rest name hc hmem]
          have hsub : (parse store excl f ((store name).dedup)).isSome := by
            apply ihf
            intro m hm hne
            have h1 : rank m < rank name := hrank name m hm hne
            have h2 : rank name < f + 1 :=
              hsrc name (mem_includeTargets_head hc) hmem
            omega
          obtain ⟨sub, hsub'⟩ := Option.isSome_iff_exists.mp hsub
          rw [hsub']
          simpa using ihs hrest

theorem parse_cycle_diverges :
    ∀ fuel,
      parse (fun n => if n = "a" then ["include:a"] else []) [] fuel ["include:a"] = none := by
  intro fuel
  induction fuel with
  | zero => exact parse_cons_incl_zero _ _ _ _ _ rfl (by simp)
  | succ f ih =>
    rw [parse_cons_incl_succ (fun n => if n = "a" then ["include:a"] else []) [] f
      "include:a" [] "a" rfl (by simp)]
    have hst : ((fun n => if n = "a" then ["include:a"] else []) "a").dedup =
        ["include:a"] := by simp
    rw [hst, ih]

/-- C8: if the include-reference graph restricted to non-excluded names
admits a rank function decreasing along include edges (i.e. is acyclic),
`parse` terminates — any fuel above the rank bound of the source
succeeds; and the resolver does no cycle detection, so on a store where
list `a` includes itself the recursion never terminates: every fuel is
exhausted. -/
theorem parse_acyclic_terminates_cycle_diverges :
    (∀ (store : String → List String) (excl : List String) (rank : String → Nat),
       (∀ n m, m ∈ includeTargets ((store n).dedup) → m ∉ excl → rank m < rank n) →
       ∀ fuel src, (∀ m ∈ includeTargets src, m ∉ excl → rank m < fuel) →
         (parse store excl fuel src).isSome) ∧
    (∀ fuel,
       parse (fun n => if n = "a" then ["include:a"] else []) [] fuel ["include:a"] = none) :=
  ⟨parse_terminates_of_ranked, parse_cycle_diverges⟩

/-- Witness for `parse_acyclic_terminates_cycle_diverges` on a concrete
acyclic store. -/
theorem parse_acyclic_terminates_witness :
    (parse (fun _ => []) [] 1 ["include:b"]).isSome :=
  parse_acyclic_terminates_cycle_diverges.1 (fun _ => []) [] (fun _ => 0)
    (fun _ m hm _ => absurd hm (by simp [includeTargets]))
    1 ["include:b"]
    (fun _ _ _ => Nat.zero_lt_one)

/-- C9 (amended): serializing a `Combined` RuleSet to the structured
list (yaml) format is not skipped — the payload block is written, with
suffix rules prefixed `+.` and every other rule written as its bare
payload; the plain-text formats (`text`, `text-plus`) and the geosite
re-export do skip `Combined` with a log and produce no output; a rule
kind rejected by a classical renderer fails with a type error naming
the offending kind and destination path, and an unknown target fails
with a type error. -/
theorem dump_combined_yaml_not_skipped (rs : RuleSet) (dst : String)
    (h : rs.Typ = "Combined") :
    dump rs "yaml" dst =
      .written ("payload:" :: rs.Payload.map fun r =>
        if r.Typ == "DomainSuffix" then "  - '+." ++ r.Payload ++ "'"
        else "  - '" ++ r.Payload ++ "'") ∧
    dump rs "text" dst = .skipped ∧
    dump rs "text-plus" dst = .skipped ∧
    dump rs "geosite" dst = .skipped ∧
    dump ⟨"Domain", [⟨"", "", ""⟩]⟩ "surge-compatible" dst =
      DumpResult.errorRule "" dst ∧
    dump rs "bogus-target" dst = DumpResult.errorTarget := by
  refine ⟨?_, ?_, ?_, ?_, ?_, ?_⟩
  · rw [dump, if_pos (by decide)]
  · rw [dump, if_neg (by decide), if_neg (by decide), if_neg (by decide),
      if_pos (by rw [h]; decide)]
  · rw [dump, if_neg (by decide), if_neg (by decide), if_neg (by decide),
      if_pos (by rw [h]; decide)]
  · rw [dump, if_neg (by decide), if_pos (by decide), if_pos (by rw [h]; decide)]
  · rw [dump, if_neg (by decide), if_neg (by decide), if_neg (by decide),
      if_neg (by decide), if_neg (by decide), if_neg (by decide), if_pos (by decide)]
    simp [renderAll, surgeLine]
  · have h3 : pyIn "text" "bogus-target" = false := by decide
    rw [dump, if_neg (by decide), if_neg (by decide), if_neg (by decide),
      if_neg (by simp [h3]), if_neg (by decide), if_neg (by decide),
      if_neg (by decide), if_neg (by decide)]

/-- Witness for `dump_combined_yaml_not_skipped` at a concrete Combined
RuleSet. -/
theorem dump_combined_yaml_not_skipped_witness :
    dump ⟨"Combined", [⟨"IPCIDR", "1.0.0.0/8", ""⟩]⟩ "yaml" "out" =
      .written ("payload:" :: ([⟨"IPCIDR", "1.0.0.0/8", ""⟩] : List Rule).map fun r =>
        if r.Typ == "DomainSuffix" then "  - '+." ++ r.Payload ++ "'"
        else "  - '" ++ r.Payload ++ "'") ∧
    dump ⟨"Combined", [⟨"IPCIDR", "1.0.0.0/8", ""⟩]⟩ "text" "out" = .skipped ∧
    dump ⟨"Combined", [⟨"IPCIDR", "1.0.0.0/8", ""⟩]⟩ "text-plus" "out" = .skipped ∧
    dump ⟨"Combined", [⟨"IPCIDR", "1.0.0.0/8", ""⟩]⟩ "geosite" "out" = .skipped ∧
    dump ⟨"Domain", [⟨"", "", ""⟩]⟩ "surge-compatible" "out" =
      DumpResult.errorRule "" "out" ∧
    dump ⟨"Combined", [⟨"IPCIDR", "1.0.0.0/8", ""⟩]⟩ "bogus-target" "out" =
      DumpResult.errorTarget :=
  dump_combined_yaml_not_skipped ⟨"Combined", [⟨"IPCIDR", "1.0.0.0/8", ""⟩]⟩ "out" rfl

/-- C9 counterexample: a `Combined` RuleSet serialized to the yaml
structured-list format is not skipped and produces output. -/
theorem dump_combined_yaml_produces_output :
    dump ⟨"Combined", [⟨"DomainSuffix", "a.com", ""⟩, ⟨"IPCIDR", "1.0.0.0/8", ""⟩]⟩
        "yaml" "out" =
      DumpResult.written ["payload:", "  - '+.a.com'", "  - '1.0.0.0/8'"] ∧
    dump ⟨"Combined", [⟨"DomainSuffix", "a.com", ""⟩, ⟨"IPCIDR", "1.0.0.0/8", ""⟩]⟩
        "yaml" "out" ≠ DumpResult.skipped := by
  constructor
  · decide
  · decide
